import Mathlib

/-!
# Verification of the RepeetCode backend core logic

Shallow embedding of `backend/main.py` and `backend/database.py`:

* UTC instants are rationals (seconds since an arbitrary epoch); a calendar
  date is the floor of the instant divided by 86400 (`dayOf`).  This models
  Python `datetime` values (microsecond precision) and `datetime.date()`.
* Python `float` arithmetic is modelled exactly: the binary64 value of each
  multiplier literal is given as a rational, and each multiplication rounds
  the exact rational product to the nearest 53-bit-significand value with
  ties to even (`roundDouble`).  The scheduler's products stay far inside
  the normal range of binary64, so overflow and subnormals do not arise.
* `int()` on a float truncates toward zero (`pyTrunc`).
* The Postgres store is a pair of association lists (catalog and per-user
  log); `ON CONFLICT (user_id, slug) DO UPDATE` presupposes a unique index
  on that pair, so the log is keyed on `(user, slug)`.
* `get_db_cursor` is modelled as an explicit commit/rollback/close wrapper
  over a pure body that returns either a new store or an error, together
  with the list of store accesses it performed.
-/

namespace RepeetCode

/-- UTC calendar date of an instant: `datetime.date()` for a datetime held as
rational seconds since the epoch. -/
def dayOf (t : ℚ) : ℤ := ⌊t / 86400⌋

/-! ## Exact model of binary64 (`float`) arithmetic -/

/-- Round a rational to the nearest integer, ties to even. -/
def roundHalfEven (r : ℚ) : ℤ :=
  if r - ⌊r⌋ < 1/2 then ⌊r⌋
  else if 1/2 < r - ⌊r⌋ then ⌊r⌋ + 1
  else if ⌊r⌋ % 2 = 0 then ⌊r⌋ else ⌊r⌋ + 1

/-- Round a rational to the grid of integer multiples of `2 ^ g`,
nearest, ties to even. -/
def roundToGrid (a : ℚ) (g : ℤ) : ℚ := (roundHalfEven (a / 2 ^ g) : ℚ) * 2 ^ g

/-- Round an exact rational to the nearest binary64 value (normal range:
the scheduler never produces values outside it): a nonzero `q` with
`2 ^ e ≤ |q| < 2 ^ (e + 1)` is rounded to the grid `2 ^ (e - 52)`. -/
def roundDouble (q : ℚ) : ℚ :=
  if q = 0 then 0
  else if 0 < q then roundToGrid q (Int.log 2 q - 52)
  else -roundToGrid (-q) (Int.log 2 (-q) - 52)

/-- Python `int(x)` on a float: truncation toward zero. -/
def pyTrunc (q : ℚ) : ℤ := if 0 ≤ q then ⌊q⌋ else -⌊-q⌋

/-! ## Review scheduler (`calculate_next_review`, main.py lines 108-123) -/

/-- Error values surfaced by the embedded code paths. -/
inductive PyErr where
  /-- `KeyError` from a dict lookup (difficulty outside 1..5). -/
  | keyError
  /-- `HTTPException(400, "Problem does not exist in database")`. -/
  | problemNotExist
  /-- `psycopg2` connection failure. -/
  | connectError
  /-- failure of `conn.commit()`. -/
  | commitError
  deriving DecidableEq, Repr

/-- The dict `{1: 8, 2: 6, 3: 4, 4: 2, 5: 1}`; `none` models `KeyError`. -/
def initial_days (d : ℤ) : Option ℤ :=
  if d = 1 then some 8
  else if d = 2 then some 6
  else if d = 3 then some 4
  else if d = 4 then some 2
  else if d = 5 then some 1
  else none

/-- The dict `{1: 0.5, 2: 0.7, 3: 0.9, 4: 1.2, 5: 1.5}` with each float
literal replaced by the exact rational value of its binary64
representation; `none` models `KeyError`. -/
def multiplier (d : ℤ) : Option ℚ :=
  if d = 1 then some (1/2)
  else if d = 2 then some (3152519739159347 / 2 ^ 52)
  else if d = 3 then some (8106479329266893 / 2 ^ 53)
  else if d = 4 then some (5404319552844595 / 2 ^ 52)
  else if d = 5 then some (3/2)
  else none

/-- `calculate_next_review(difficulty, last_review_date)` evaluated at the
instant `now`.  `(now - last_review_date).days` floors toward negative
infinity; `days_since_last * multiplier[difficulty]` converts the int to a
float and multiplies in binary64; `int(...)` truncates toward zero;
`timedelta(days = k)` is exactly `86400 * k` seconds. -/
def calculate_next_review (now : ℚ) (difficulty : ℤ) (lastReviewDate : Option ℚ) :
    Except PyErr ℚ :=
  match lastReviewDate with
  | none =>
    match initial_days difficulty with
    | none => .error .keyError
    | some k => .ok (now + 86400 * k)
  | some last =>
    let daysSinceLast : ℤ := ⌊(now - last) / 86400⌋
    match multiplier difficulty with
    | none => .error .keyError
    | some m =>
      let nextGap : ℤ := max 1 (pyTrunc (roundDouble (roundDouble (daysSinceLast : ℚ) * m)))
      .ok (now + 86400 * (min nextGap 90))

/-! ## Streak calculator (`calculate_current_streak`, main.py lines 53-62) -/

/-- The `while today in logged_days` loop: count consecutive days present in
the set, walking backwards one day at a time. -/
def streakLoop (days : Finset ℤ) (today : ℤ) : ℕ :=
  if today ∈ days then streakLoop days (today - 1) + 1 else 0
termination_by (days.filter (fun d => d ≤ today)).card
decreasing_by
  rename_i h
  apply Finset.card_lt_card
  rw [Finset.ssubset_def]
  constructor
  · intro d hd
    simp only [Finset.mem_filter] at hd ⊢
    exact ⟨hd.1, by omega⟩
  · intro hsub
    have := hsub (by simp [h] : today ∈ days.filter (fun d => d ≤ today))
    simp at this

/-- `calculate_current_streak(dates)` evaluated at the instant `now`: the
empty list returns 0 immediately; otherwise each timestamp is mapped to its
UTC calendar date, collected into a set, and the loop walks back from
today's date. -/
def calculate_current_streak (now : ℚ) (dates : List ℚ) : ℕ :=
  if dates = [] then 0
  else streakLoop ((dates.map dayOf).toFinset) (dayOf now)

/-! ## The Postgres store -/

/-- A value held in a `tags` column: JSON null, a JSON list of strings, or a
JSON object whose keys are the tags (association list, in key order). -/
inductive TagsVal where
  | null
  | list (l : List String)
  | dict (ps : List (String × ℤ))
  deriving DecidableEq, Repr

/-- A `user_problem` row minus its `(user_id, slug)` key. -/
structure LogEntry where
  title : String
  difficulty : ℤ
  dateSolved : ℚ
  nextReview : ℚ
  tags : List String
  deriving DecidableEq, Repr

/-- A `user_problem` row: `(user_id, slug)` key plus the other columns. -/
abbrev LogRow := (String × String) × LogEntry

/-- The two tables: `leetcode_problem` keyed by `slug` (only the `tags`
column is read by the embedded flows) and `user_problem` keyed by
`(user_id, slug)` (unique index, presupposed by `ON CONFLICT`). -/
structure Store where
  catalog : List (String × TagsVal)
  logs : List LogRow
  deriving DecidableEq, Repr

/-- `SELECT tags FROM leetcode_problem WHERE slug = %s` (and the `SELECT 1`
existence probe): the unique catalog row for the slug, if any. -/
def findCatalog (s : String) (st : Store) : Option TagsVal :=
  (st.catalog.find? (fun c => decide (c.1 = s))).map Prod.snd

/-- `SELECT ... FROM user_problem WHERE user_id = %s AND slug = %s`:
the unique log row for the key, if any. -/
def lookupLog (u s : String) (logs : List LogRow) : Option LogEntry :=
  (logs.find? (fun r => decide (r.1 = (u, s)))).map Prod.snd

/-- The tag normalization in `log_problem` (main.py lines 140-147): a SQL
NULL becomes `[]`, a JSON object becomes the list of its keys, a JSON list
is kept as is. -/
def normalizeTags : TagsVal → List String
  | .null => []
  | .list l => l
  | .dict ps => ps.map Prod.fst

/-- The `DO UPDATE SET difficulty = EXCLUDED.difficulty, date_solved = ...,
next_review_date = ..., tags = ...` clause: overwrite exactly those four
columns of the existing row — note `title` is NOT in the update list, so an
existing row keeps its old title. -/
def mergeEntry (old e : LogEntry) : LogEntry :=
  { old with difficulty := e.difficulty, dateSolved := e.dateSolved,
             nextReview := e.nextReview, tags := e.tags }

/-- `INSERT ... ON CONFLICT (user_id, slug) DO UPDATE`: replace the row
with the matching key if one exists (the unique index allows at most one),
otherwise append a fresh row. -/
def upsertLog (u s : String) (e : LogEntry) : List LogRow → List LogRow
  | [] => [((u, s), e)]
  | r :: rest =>
    if r.1 = (u, s) then ((u, s), mergeEntry r.2 e) :: rest
    else r :: upsertLog u s e rest

/-- One store access performed through the cursor. -/
inductive DBEvent where
  /-- a `SELECT` on `leetcode_problem` -/
  | selectCatalog
  /-- a `SELECT` on `user_problem` -/
  | selectLogs
  /-- the `INSERT ... ON CONFLICT` write on `user_problem` -/
  | insertLog
  deriving DecidableEq, Repr

/-! ## The scoped cursor (`get_db_cursor`, database.py lines 11-32) -/

/-- Everything observable about one run of a `with get_db_cursor()` block. -/
structure CursorOutcome (α : Type) where
  /-- the value returned, or the surfaced exception -/
  result : Except PyErr α
  /-- the store state visible after the block (committed or rolled back) -/
  store : Store
  /-- the store accesses performed by the body, in order -/
  events : List DBEvent
  /-- a connection was acquired -/
  acquired : Bool
  /-- `conn.commit()` ran successfully -/
  committed : Bool
  /-- `conn.rollback()` ran -/
  rolledBack : Bool
  /-- `conn.close()` ran -/
  closed : Bool

/-- `get_db_cursor`: connect (may fail), run the body, commit on success,
roll back and surface the error on any exception (including a commit
failure), and close the connection in `finally` whenever one was opened.
`connectOk` and `commitOk` model whether the external store accepts the
connection and the commit. -/
def get_db_cursor {α : Type} (connectOk commitOk : Bool) (st : Store)
    (body : Store → Except PyErr (Store × α) × List DBEvent) : CursorOutcome α :=
  if ¬connectOk then
    { result := .error .connectError, store := st, events := [],
      acquired := false, committed := false, rolledBack := false, closed := false }
  else
    match body st with
    | (.ok (st', a), evs) =>
      if commitOk then
        { result := .ok a, store := st', events := evs,
          acquired := true, committed := true, rolledBack := false, closed := true }
      else
        { result := .error .commitError, store := st, events := evs,
          acquired := true, committed := false, rolledBack := true, closed := true }
    | (.error e, evs) =>
      { result := .error e, store := st, events := evs,
        acquired := true, committed := false, rolledBack := true, closed := true }

/-! ## Logging flow (`log_problem`, main.py lines 126-191) -/

/-- The body of `log_problem`'s `with get_db_cursor()` block, evaluated at
instant `now` for user `u`, slug `s`, title `t`, difficulty `d`: existence
check, tags fetch, last-review fetch, scheduling, upsert.  Returns the new
store and the response `(message, next_review)` or the first exception,
together with the accesses performed. -/
def logBody (now : ℚ) (u s t : String) (d : ℤ) (st : Store) :
    Except PyErr (Store × (String × ℚ)) × List DBEvent :=
  match findCatalog s st with
  | none => (.error .problemNotExist, [.selectCatalog])
  | some tagsVal =>
    let tags := normalizeTags tagsVal
    let last := (lookupLog u s st.logs).map LogEntry.dateSolved
    match calculate_next_review now d last with
    | .error e => (.error e, [.selectCatalog, .selectCatalog, .selectLogs])
    | .ok next =>
      (.ok ({ st with logs := upsertLog u s ⟨t, d, now, next, tags⟩ st.logs },
            (t ++ " logged!", next)),
       [.selectCatalog, .selectCatalog, .selectLogs, .insertLog])

/-- `log_problem` endpoint: the body above run inside `get_db_cursor`. -/
def log_problem (connectOk commitOk : Bool) (now : ℚ) (u s t : String) (d : ℤ)
    (st : Store) : CursorOutcome (String × ℚ) :=
  get_db_cursor connectOk commitOk st (logBody now u s t d)

/-! ## Review query (`get_todays_reviews`, main.py lines 193-248) -/

/-- The three response shapes of `/reviews`: a non-empty due list (no
`next_up` key at all), an empty due list with a `next_up` record, or an
empty due list with `next_up: null`. -/
inductive ReviewsResponse where
  | due (rows : List (LogRow × TagsVal))
  | nextUp (row : LogRow × TagsVal)
  | empty
  deriving DecidableEq, Repr

/-- `JOIN leetcode_problem lp ON up.slug = lp.slug` restricted to one
user's rows: each of the user's log rows paired with its catalog tags
(rows whose slug is not in the catalog are dropped by the inner join). -/
def joinedRows (u : String) (st : Store) : List (LogRow × TagsVal) :=
  st.logs.filterMap (fun r =>
    if r.1.1 = u then (findCatalog r.1.2 st).map (fun tv => (r, tv)) else none)

/-- `ORDER BY up.next_review_date ASC LIMIT 1`: some row with minimal
`next_review_date` (ties broken by list position, which the SQL leaves
unspecified). -/
def minByNextReview : List (LogRow × TagsVal) → Option (LogRow × TagsVal)
  | [] => none
  | r :: rest =>
    match minByNextReview rest with
    | none => some r
    | some m => if r.1.2.nextReview ≤ m.1.2.nextReview then some r else some m

/-- `today_end = datetime.combine(datetime.utcnow().date(), time(23, 59, 59))`:
the instant 23:59:59 (in whole seconds) of the current UTC calendar day. -/
def todayEnd (now : ℚ) : ℚ := (dayOf now : ℚ) * 86400 + 86399

/-- `get_todays_reviews` evaluated at instant `now`: records due by
`todayEnd` are returned, else the upcoming record with minimal next-review
date, else the empty response.  (The cursor wrapper commits a read-only
transaction; the visible store never changes, so only the response is
modelled.) -/
def get_todays_reviews (now : ℚ) (u : String) (st : Store) : ReviewsResponse :=
  let due := (joinedRows u st).filter (fun rc => decide (rc.1.2.nextReview ≤ todayEnd now))
  if due ≠ [] then .due due
  else
    match minByNextReview (joinedRows u st) with
    | some r => .nextUp r
    | none => .empty

/-! ## Helper lemmas: binary64 rounding -/

lemma log2_eq_of {q : ℚ} {e : ℤ} (h0 : 0 < q) (h1 : 2 ^ e ≤ q) (h2 : q < 2 ^ (e + 1)) :
    Int.log 2 q = e := by
  have hb : (1 : ℕ) < 2 := by norm_num
  have hle : e ≤ Int.log 2 q := (Int.zpow_le_iff_le_log hb h0).mp (by exact_mod_cast h1)
  have hlt : Int.log 2 q < e + 1 := (Int.lt_zpow_iff_log_lt hb h0).mp (by exact_mod_cast h2)
  omega

lemma roundDouble_eval {q : ℚ} {e : ℤ} (h0 : 0 < q) (h1 : 2 ^ e ≤ q) (h2 : q < 2 ^ (e + 1)) :
    roundDouble q = (roundHalfEven (q / 2 ^ (e - 52)) : ℚ) * 2 ^ (e - 52) := by
  unfold roundDouble roundToGrid
  rw [if_neg (ne_of_gt h0), if_pos h0, log2_eq_of h0 h1 h2]

lemma roundHalfEven_int (n : ℤ) : roundHalfEven (n : ℚ) = n := by
  unfold roundHalfEven
  norm_num

lemma roundToGrid_int {n g : ℤ} (hg : g ≤ 0) : roundToGrid (n : ℚ) g = n := by
  unfold roundToGrid
  have hnat : ((2:ℚ) ^ (-g).toNat : ℚ) = (2:ℚ) ^ (((-g).toNat : ℤ)) :=
    (zpow_natCast 2 (-g).toNat).symm
  have hexp : (((-g).toNat : ℤ)) = -g := by omega
  have key : (n : ℚ) / 2 ^ g = ((n * 2 ^ (-g).toNat : ℤ) : ℚ) := by
    push_cast
    rw [hnat, hexp, div_eq_mul_inv, ← zpow_neg]
  rw [key, roundHalfEven_int]
  push_cast
  rw [mul_assoc, hnat, hexp, ← zpow_add₀ (by norm_num : (2:ℚ) ≠ 0)]
  simp

lemma roundDouble_int_small {n : ℤ} {e : ℤ} (h0 : 0 < (n : ℚ)) (h1 : (2:ℚ) ^ e ≤ n)
    (h2 : (n : ℚ) < 2 ^ (e + 1)) (he : e ≤ 52) : roundDouble (n : ℚ) = n := by
  rw [show roundDouble (n : ℚ) = (roundHalfEven ((n:ℚ) / 2 ^ (e - 52)) : ℚ) * 2 ^ (e - 52)
    from roundDouble_eval h0 h1 h2]
  have := roundToGrid_int (n := n) (g := e - 52) (by omega)
  unfold roundToGrid at this
  exact this

lemma roundHalfEven_nonneg {r : ℚ} (h : 0 ≤ r) : 0 ≤ roundHalfEven r := by
  unfold roundHalfEven
  have hf : 0 ≤ ⌊r⌋ := Int.floor_nonneg.mpr h
  split <;> [exact hf; split <;> [omega; split <;> omega]]

lemma roundDouble_nonpos {q : ℚ} (h : q ≤ 0) : roundDouble q ≤ 0 := by
  unfold roundDouble
  rcases eq_or_lt_of_le h with rfl | hneg
  · simp
  · rw [if_neg (ne_of_lt hneg), if_neg (not_lt.mpr h)]
    have : 0 ≤ roundToGrid (-q) (Int.log 2 (-q) - 52) := by
      unfold roundToGrid
      have hp : (0:ℚ) < 2 ^ (Int.log 2 (-q) - 52) :=
        zpow_pos (by norm_num : (0:ℚ) < 2) _
      have h1 : (0:ℚ) ≤ -q / 2 ^ (Int.log 2 (-q) - 52) :=
        div_nonneg (by linarith) (le_of_lt hp)
      have h2 : (0:ℤ) ≤ roundHalfEven (-q / 2 ^ (Int.log 2 (-q) - 52)) :=
        roundHalfEven_nonneg h1
      exact mul_nonneg (by exact_mod_cast h2) (le_of_lt hp)
    linarith

lemma pyTrunc_nonpos {q : ℚ} (h : q ≤ 0) : pyTrunc q ≤ 0 := by
  unfold pyTrunc
  split
  · have : q = 0 := le_antisymm h (by assumption)
    simp [this]
  · have : (0:ℚ) ≤ -q := by linarith
    have := Int.floor_nonneg.mpr this
    omega

/-! ## Helper lemmas: the streak loop -/

lemma streakLoop_succ {days : Finset ℤ} {today : ℤ} (h : today ∈ days) :
    streakLoop days today = streakLoop days (today - 1) + 1 := by
  rw [streakLoop, if_pos h]

lemma streakLoop_zero {days : Finset ℤ} {today : ℤ} (h : today ∉ days) :
    streakLoop days today = 0 := by
  rw [streakLoop, if_neg h]

lemma streakLoop_mem (days : Finset ℤ) :
    ∀ (k : ℕ) (today : ℤ), k < streakLoop days today → today - k ∈ days := by
  intro k
  induction k with
  | zero =>
    intro today hk
    by_cases h : today ∈ days
    · simpa using h
    · rw [streakLoop_zero h] at hk
      omega
  | succ j ih =>
    intro today hk
    by_cases h : today ∈ days
    · rw [streakLoop_succ h] at hk
      have := ih (today - 1) (by omega)
      have heq : today - (j + 1 : ℕ) = today - 1 - j := by push_cast; ring
      rwa [heq]
    · rw [streakLoop_zero h] at hk
      omega

lemma streakLoop_stop (days : Finset ℤ) (today : ℤ) :
    today - streakLoop days today ∉ days := by
  suffices h : ∀ (n : ℕ) (t : ℤ), streakLoop days t = n → t - n ∉ days by
    exact h _ today rfl
  intro n
  induction n using Nat.strong_induction_on with
  | _ n ih =>
    intro t hn
    by_cases h : t ∈ days
    · rw [streakLoop_succ h] at hn
      have hm := ih (streakLoop days (t - 1)) (by omega) (t - 1) rfl
      have heq : t - (n : ℤ) = t - 1 - streakLoop days (t - 1) := by
        push_cast [← hn]
        ring
      rwa [heq]
    · rw [streakLoop_zero h] at hn
      subst hn
      simpa using h

lemma streakLoop_eq_iff (days : Finset ℤ) (today : ℤ) (n : ℕ) :
    streakLoop days today = n ↔
      (∀ k : ℕ, k < n → today - k ∈ days) ∧ today - n ∉ days := by
  constructor
  · rintro rfl
    exact ⟨fun k hk => streakLoop_mem days k today hk, streakLoop_stop days today⟩
  · rintro ⟨hmem, hstop⟩
    by_contra hne
    rcases Nat.lt_or_ge (streakLoop days today) n with hlt | hge
    · exact streakLoop_stop days today (hmem _ hlt)
    · have : streakLoop days today ≠ n := hne
      have hlt : n < streakLoop days today := by omega
      exact hstop (streakLoop_mem days n today hlt)


/-! ## Helper lemmas: the store and the upsert -/

/-- The unique index on `(user_id, slug)`: no two rows share a key. -/
def KeysUnique (logs : List LogRow) : Prop := logs.Pairwise (fun a b => a.1 ≠ b.1)

/-- Number of stored rows with key `(u, s)`. -/
def countKey (u s : String) (logs : List LogRow) : ℕ :=
  (logs.filter (fun r => decide (r.1 = (u, s)))).length

lemma upsertLog_mem {u s : String} {e : LogEntry} :
    ∀ {logs : List LogRow} {b : LogRow}, b ∈ upsertLog u s e logs →
      b.1 = (u, s) ∨ b ∈ logs := by
  intro logs
  induction logs with
  | nil =>
    intro b hb
    simp only [upsertLog, List.mem_singleton] at hb
    left
    rw [hb]
  | cons r rest ih =>
    intro b hb
    by_cases hr : r.1 = (u, s)
    · rw [upsertLog, if_pos hr] at hb
      rcases List.mem_cons.mp hb with rfl | hmem
      · left
        rfl
      · right
        exact List.mem_cons_of_mem _ hmem
    · rw [upsertLog, if_neg hr] at hb
      rcases List.mem_cons.mp hb with rfl | hmem
      · right
        exact List.mem_cons_self _ _
      · rcases ih hmem with h | h
        · left
          exact h
        · right
          exact List.mem_cons_of_mem _ h

lemma KeysUnique_upsert {u s : String} {e : LogEntry} {logs : List LogRow}
    (h : KeysUnique logs) : KeysUnique (upsertLog u s e logs) := by
  induction logs with
  | nil =>
    simp [upsertLog, KeysUnique]
  | cons r rest ih =>
    rcases List.pairwise_cons.mp h with ⟨hr, ht⟩
    by_cases hk : r.1 = (u, s)
    · rw [KeysUnique, upsertLog, if_pos hk]
      refine List.pairwise_cons.mpr ⟨?_, ht⟩
      intro b hb
      have hne := hr b hb
      rw [hk] at hne
      exact hne
    · rw [KeysUnique, upsertLog, if_neg hk]
      refine List.pairwise_cons.mpr ⟨?_, ih ht⟩
      intro b hb
      rcases upsertLog_mem hb with h1 | h1
      · rw [h1]
        exact hk
      · exact hr b h1

lemma lookupLog_upsert_self (u s : String) (e : LogEntry) (logs : List LogRow) :
    lookupLog u s (upsertLog u s e logs) =
      some ((lookupLog u s logs).elim e (fun old => mergeEntry old e)) := by
  induction logs with
  | nil =>
    simp [upsertLog, lookupLog]
  | cons r rest ih =>
    by_cases hk : r.1 = (u, s)
    · rw [upsertLog, if_pos hk]
      simp [lookupLog, List.find?, hk]
    · rw [upsertLog, if_neg hk]
      simpa [lookupLog, List.find?, hk] using ih

lemma countKey_eq_zero {u s : String} {logs : List LogRow}
    (h : ∀ b ∈ logs, b.1 ≠ (u, s)) : countKey u s logs = 0 := by
  unfold countKey
  rw [List.length_eq_zero, List.filter_eq_nil_iff]
  intro a ha
  simpa using h a ha

lemma countKey_upsert {u s : String} {e : LogEntry} {logs : List LogRow}
    (h : KeysUnique logs) : countKey u s (upsertLog u s e logs) = 1 := by
  induction logs with
  | nil =>
    simp [upsertLog, countKey]
  | cons r rest ih =>
    rcases List.pairwise_cons.mp h with ⟨hr, ht⟩
    by_cases hk : r.1 = (u, s)
    · rw [upsertLog, if_pos hk]
      unfold countKey
      rw [List.filter_cons]
      rw [show (decide (((u, s), mergeEntry r.2 e).1 = (u, s))) = true by simp]
      have hzero : countKey u s rest = 0 := by
        apply countKey_eq_zero
        intro b hb hbeq
        exact hr b hb (by rw [hk, hbeq])
      unfold countKey at hzero
      simp [hzero]
  
    · rw [upsertLog, if_neg hk]
      unfold countKey at ih ⊢
      rw [List.filter_cons]
      rw [show (decide (r.1 = (u, s))) = false by simp [hk]]
      exact ih ht

/-- For 1 ≤ d ≤ 5 the scheduler always succeeds. -/
lemma calculate_next_review_ok (now : ℚ) (d : ℤ) (last : Option ℚ)
    (h1 : 1 ≤ d) (h5 : d ≤ 5) :
    ∃ v, calculate_next_review now d last = .ok v := by
  cases last with
  | none =>
    have hk : ∃ k, initial_days d = some k := by
      interval_cases d <;> exact ⟨_, rfl⟩
    obtain ⟨k, hk⟩ := hk
    exact ⟨now + 86400 * k, by simp [calculate_next_review, hk]⟩
  | some l =>
    have hm : ∃ m, multiplier d = some m := by
      interval_cases d <;> exact ⟨_, rfl⟩
    obtain ⟨m, hm⟩ := hm
    simp only [calculate_next_review, hm]
    exact ⟨_, rfl⟩

/-- Shape of a fully successful `log_problem` call. -/
lemma log_problem_ok {now : ℚ} {u s t : String} {d : ℤ} {st : Store}
    {tv : TagsVal} {v : ℚ}
    (hcat : findCatalog s st = some tv)
    (hnext : calculate_next_review now d
      ((lookupLog u s st.logs).map LogEntry.dateSolved) = .ok v) :
    log_problem true true now u s t d st =
      { result := .ok (t ++ " logged!", v),
        store := { catalog := st.catalog,
                   logs := upsertLog u s ⟨t, d, now, v, normalizeTags tv⟩ st.logs },
        events := [.selectCatalog, .selectCatalog, .selectLogs, .insertLog],
        acquired := true, committed := true, rolledBack := false, closed := true } := by
  unfold log_problem get_db_cursor logBody
  rw [hcat]
  simp only [hnext]
  rfl

/-! ## Claim C1: the repeat-case schedule -/

/-- Modelled from the spec: the repeat-case gap formula of spec section 4.2
and claim C1, in exact rational arithmetic — `daysSinceLast` clamped at 0,
`gap = min(90, max(1, floor(daysSinceLast * multiplier[d])))` with the
decimal table `{1: 0.5, 2: 0.7, 3: 0.9, 4: 1.2, 5: 1.5}`. -/
def specRepeatGap (d : ℤ) (daysSinceLast : ℤ) : ℤ :=
  let m : ℚ :=
    if d = 1 then 1/2 else if d = 2 then 7/10 else if d = 3 then 9/10
    else if d = 4 then 6/5 else 3/2
  min 90 (max 1 ⌊((max 0 daysSinceLast : ℤ) : ℚ) * m⌋)

/-- C1 fails on the code: at difficulty 2 with `lastReviewDate` 90 days ago
(7776000 seconds), binary64 evaluation gives `int(90 * 0.7) = 62` (since
`90 * 0.7 = 62.99999999999999` in floats), while the claim's exact formula
gives `floor(90 * 0.7) = 63`; the scheduler returns now + 62 days, not
now + 63 days. -/
theorem C1_counterexample :
    calculate_next_review 0 2 (some (-7776000)) = .ok (86400 * 62) ∧
    specRepeatGap 2 ⌊((0:ℚ) - (-7776000)) / 86400⌋ = 63 ∧
    calculate_next_review 0 2 (some (-7776000)) ≠
      .ok (0 + 86400 * (specRepeatGap 2 ⌊((0:ℚ) - (-7776000)) / 86400⌋ : ℚ)) := by
  have h90 : roundDouble ((90 : ℚ)) = 90 := by
    have := roundDouble_int_small (n := 90) (e := 6) (by norm_num) (by norm_num)
      (by norm_num) (by norm_num)
    exact_mod_cast this
  have hprod : roundDouble ((90 : ℚ) * (3152519739159347 / 2 ^ 52)) =
      8866461766385663 / 2 ^ 47 := by
    rw [roundDouble_eval (e := 5) (by norm_num) (by norm_num) (by norm_num)]
    have harg : (90:ℚ) * (3152519739159347 / 2 ^ 52) / 2 ^ ((5:ℤ) - 52) =
        283726776524341230 / 32 := by
      norm_num
    rw [harg]
    have hr : roundHalfEven ((283726776524341230 : ℚ) / 32) = 8866461766385663 := by
      norm_num [roundHalfEven]
    rw [hr]
    norm_num
  have hprod' : roundDouble ((141863388262170615 : ℚ) / 2251799813685248) =
      8866461766385663 / 2 ^ 47 := by
    rw [show ((141863388262170615 : ℚ) / 2251799813685248) =
      (90 : ℚ) * (3152519739159347 / 2 ^ 52) from by norm_num]
    exact hprod
  have hdays : (⌊((0:ℚ) - (-7776000)) / 86400⌋ : ℤ) = 90 := by norm_num
  have hcode : calculate_next_review 0 2 (some (-7776000)) = .ok (86400 * 62) := by
    simp only [calculate_next_review, multiplier, hdays]
    norm_num [h90, hprod', pyTrunc]
  have hspec : specRepeatGap 2 ⌊((0:ℚ) - (-7776000)) / 86400⌋ = 63 := by
    rw [hdays]
    norm_num [specRepeatGap]
  refine ⟨hcode, hspec, ?_⟩
  rw [hcode, hspec]
  intro h
  have := Except.ok.inj h
  norm_num at this

/-- C1 amended: for every difficulty 1..5 and every present
`lastReviewDate`, the scheduler returns now + gap days where
`gap = min(90, max(1, int(daysSinceLast * multiplier[d])))` is evaluated in
binary64 floating point (not exact arithmetic); the gap always lies in
[1, 90]; a skewed clock (now < lastReviewDate) yields gap 1, as the
claim's clamp-to-0 also would; and the claim's two examples hold as
stated: difficulty 3 ten days ago gives now + 9 days, difficulty 5 two
hundred days ago gives now + 90 days. -/
theorem C1_theorem (now last : ℚ) (d : ℤ) (h1 : 1 ≤ d) (h5 : d ≤ 5) :
    (∃ m g, multiplier d = some m ∧
      g = min (max 1 (pyTrunc (roundDouble
            (roundDouble ((⌊(now - last) / 86400⌋ : ℤ) : ℚ) * m)))) 90 ∧
      calculate_next_review now d (some last) = .ok (now + 86400 * g) ∧
      1 ≤ g ∧ g ≤ 90 ∧
      (now < last → g = 1)) ∧
    calculate_next_review now 3 (some (now - 864000)) =
      .ok (now + 86400 * (specRepeatGap 3 10 : ℚ)) ∧
    calculate_next_review now 5 (some (now - 17280000)) =
      .ok (now + 86400 * (specRepeatGap 5 200 : ℚ)) := by
  refine ⟨?_, ?_, ?_⟩
  · have main : ∀ m : ℚ, multiplier d = some m →
        ∃ m' g, multiplier d = some m' ∧
          g = min (max 1 (pyTrunc (roundDouble
                (roundDouble ((⌊(now - last) / 86400⌋ : ℤ) : ℚ) * m')))) 90 ∧
          calculate_next_review now d (some last) = .ok (now + 86400 * g) ∧
          1 ≤ g ∧ g ≤ 90 ∧
          (now < last → g = 1) := by
      intro m hm
      have hmpos : 0 ≤ m := by
        interval_cases d <;> simp [multiplier] at hm <;> rw [← hm] <;> norm_num
      refine ⟨m, _, hm, rfl, ?_, ?_, ?_, ?_⟩
      · simp only [calculate_next_review, hm]
      · exact le_min (le_max_left _ _) (by norm_num)
      · exact min_le_right _ _
      · intro hlt
        have hfloor : (⌊(now - last) / 86400⌋ : ℤ) ≤ 0 := by
          have hx : (now - last) / 86400 ≤ 0 := by
            apply div_nonpos_of_nonpos_of_nonneg <;> linarith
          calc ⌊(now - last) / 86400⌋ ≤ ⌊(0:ℚ)⌋ := Int.floor_le_floor hx
          _ = 0 := Int.floor_zero
        have hcast : ((⌊(now - last) / 86400⌋ : ℤ) : ℚ) ≤ 0 := by exact_mod_cast hfloor
        have hrd1 : roundDouble ((⌊(now - last) / 86400⌋ : ℤ) : ℚ) ≤ 0 :=
          roundDouble_nonpos hcast
        have hprod : roundDouble ((⌊(now - last) / 86400⌋ : ℤ) : ℚ) * m ≤ 0 :=
          mul_nonpos_of_nonpos_of_nonneg hrd1 hmpos
        have hrd2 : roundDouble (roundDouble ((⌊(now - last) / 86400⌋ : ℤ) : ℚ) * m) ≤ 0 :=
          roundDouble_nonpos hprod
        have htr := pyTrunc_nonpos hrd2
        have hmax : max 1 (pyTrunc (roundDouble
            (roundDouble ((⌊(now - last) / 86400⌋ : ℤ) : ℚ) * m))) = 1 :=
          max_eq_left (by omega)
        rw [hmax]
        norm_num
    interval_cases d
    · exact main (1/2) (by norm_num [multiplier])
    · exact main (3152519739159347 / 2 ^ 52) (by norm_num [multiplier])
    · exact main (8106479329266893 / 2 ^ 53) (by norm_num [multiplier])
    · exact main (5404319552844595 / 2 ^ 52) (by norm_num [multiplier])
    · exact main (3/2) (by norm_num [multiplier])
  · have hdays : (⌊(now - (now - 864000)) / 86400⌋ : ℤ) = 10 := by
      rw [show now - (now - 864000) = 864000 from by ring]
      norm_num
    have h10 : roundDouble ((10 : ℚ)) = 10 := by
      have := roundDouble_int_small (n := 10) (e := 3) (by norm_num) (by norm_num)
        (by norm_num) (by norm_num)
      exact_mod_cast this
    have hprod : roundDouble ((10 : ℚ) * (8106479329266893 / 2 ^ 53)) =
        9 := by
      rw [roundDouble_eval (e := 3) (by norm_num) (by norm_num) (by norm_num)]
      have harg : (10:ℚ) * (8106479329266893 / 2 ^ 53) / 2 ^ ((3:ℤ) - 52) =
          40532396646334465 / 8 := by
        norm_num
      rw [harg]
      have hr : roundHalfEven ((40532396646334465 : ℚ) / 8) = 5066549580791808 := by
        norm_num [roundHalfEven]
      rw [hr]
      norm_num
    have hprod' : roundDouble ((40532396646334465 : ℚ) / 4503599627370496) = 9 := by
      rw [show ((40532396646334465 : ℚ) / 4503599627370496) =
        (10 : ℚ) * (8106479329266893 / 2 ^ 53) from by norm_num]
      exact hprod
    simp only [calculate_next_review, multiplier, hdays]
    norm_num [h10, hprod', pyTrunc, specRepeatGap]
  · have hdays : (⌊(now - (now - 17280000)) / 86400⌋ : ℤ) = 200 := by
      rw [show now - (now - 17280000) = 17280000 from by ring]
      norm_num
    have h200 : roundDouble ((200 : ℚ)) = 200 := by
      have := roundDouble_int_small (n := 200) (e := 7) (by norm_num) (by norm_num)
        (by norm_num) (by norm_num)
      exact_mod_cast this
    have h300 : roundDouble ((300 : ℚ)) = 300 := by
      have := roundDouble_int_small (n := 300) (e := 8) (by norm_num) (by norm_num)
        (by norm_num) (by norm_num)
      exact_mod_cast this
    simp only [calculate_next_review, multiplier, hdays]
    norm_num [h200, h300, pyTrunc, specRepeatGap]

/-- Witness for C1: at difficulty 2, 90 days since the last review, the
hypotheses of `C1_theorem` hold and the claim's two worked examples are
produced at a concrete instant. -/
theorem C1_witness :
    calculate_next_review 0 3 (some (0 - 864000)) = .ok (0 + 86400 * (9 : ℚ)) ∧
    calculate_next_review 0 5 (some (0 - 17280000)) = .ok (0 + 86400 * (90 : ℚ)) := by
  obtain ⟨-, hex3, hex5⟩ := C1_theorem 0 (-7776000) 2 (by norm_num) (by norm_num)
  constructor
  · rw [hex3]
    norm_num [specRepeatGap]
  · rw [hex5]
    norm_num [specRepeatGap]

/-! ## Claim C2: the first-time schedule -/

/-- C2: with `lastReviewDate` absent, the scheduler returns
now + `initial_days[d]` days for the fixed table
`{1: 8, 2: 6, 3: 4, 4: 2, 5: 1}`; in particular difficulty 1 gives
now + 8 days and difficulty 5 gives now + 1 day. -/
theorem C2_theorem (now : ℚ) :
    calculate_next_review now 1 none = .ok (now + 86400 * 8) ∧
    calculate_next_review now 2 none = .ok (now + 86400 * 6) ∧
    calculate_next_review now 3 none = .ok (now + 86400 * 4) ∧
    calculate_next_review now 4 none = .ok (now + 86400 * 2) ∧
    calculate_next_review now 5 none = .ok (now + 86400 * 1) := by
  refine ⟨?_, ?_, ?_, ?_, ?_⟩ <;> norm_num [calculate_next_review, initial_days]

/-! ## Claim C3: the streak walk -/

/-- C3: the streak calculator returns 0 on the empty list and whenever
today's UTC date is absent from the date set; every day it counts is
present, walking back from today; the first missing day stops it; and the
count is the unique number with these properties (so the function is
deterministic — it is a pure function of the date set and the current UTC
date, and the embedding is mutation-free by construction). -/
theorem C3_theorem (now : ℚ) (dates : List ℚ) :
    (dates = [] → calculate_current_streak now dates = 0) ∧
    (dayOf now ∉ (dates.map dayOf).toFinset → calculate_current_streak now dates = 0) ∧
    (∀ k : ℕ, k < calculate_current_streak now dates →
      dayOf now - k ∈ (dates.map dayOf).toFinset) ∧
    (dayOf now - calculate_current_streak now dates ∉ (dates.map dayOf).toFinset) ∧
    (∀ n : ℕ, (∀ k : ℕ, k < n → dayOf now - k ∈ (dates.map dayOf).toFinset) →
      dayOf now - n ∉ (dates.map dayOf).toFinset →
      calculate_current_streak now dates = n) := by
  by_cases hd : dates = []
  · subst hd
    refine ⟨fun _ => rfl, fun _ => rfl, ?_, ?_, ?_⟩
    · intro k hk
      simp [calculate_current_streak] at hk
    · simp [calculate_current_streak]
    · intro n hmem _
      rcases Nat.eq_zero_or_pos n with rfl | hpos
      · rfl
      · have := hmem 0 hpos
        simp at this
  · have hcalc : calculate_current_streak now dates =
        streakLoop ((dates.map dayOf).toFinset) (dayOf now) := by
      simp [calculate_current_streak, hd]
    refine ⟨fun h => absurd h hd, ?_, ?_, ?_, ?_⟩
    · intro habs
      rw [hcalc, streakLoop_zero habs]
    · intro k hk
      rw [hcalc] at hk
      exact streakLoop_mem _ k _ hk
    · rw [hcalc]
      exact streakLoop_stop _ _
    · intro n hmem hstop
      rw [hcalc]
      exact (streakLoop_eq_iff _ _ _).mpr ⟨hmem, hstop⟩

/-- Witness for C3: concrete instances of the claim's examples — streak 0
for the empty set, 3 for {today, yesterday, today-2}, 1 for
{today, today-2} (the gap breaks the streak), each obtained by applying
`C3_theorem`. -/
theorem C3_witness :
    calculate_current_streak 0 [] = 0 ∧
    calculate_current_streak 43200 [43200] = 1 ∧
    calculate_current_streak 0 [0, -86400, -172800] = 3 ∧
    calculate_current_streak 0 [0, -172800] = 1 := by
  refine ⟨(C3_theorem 0 []).1 rfl, ?_, ?_, ?_⟩
  · apply (C3_theorem 43200 [43200]).2.2.2.2 1
    · intro k hk
      interval_cases k
      norm_num [dayOf]
    · norm_num [dayOf]
  · apply (C3_theorem 0 [0, -86400, -172800]).2.2.2.2 3
    · intro k hk
      interval_cases k <;> norm_num [dayOf]
    · norm_num [dayOf]
  · apply (C3_theorem 0 [0, -172800]).2.2.2.2 1
    · intro k hk
      interval_cases k
      norm_num [dayOf]
    · norm_num [dayOf]

/-! ## Claim C10: the streak depends only on the set of calendar days -/

/-- C10: the streak calculator maps each timestamp to its UTC calendar
date and collects the dates into a set, so its result is invariant under
permutation of the input list, under prepending a timestamp whose calendar
day is already present (covering duplicates), and more generally depends
on the timestamps only through their calendar days (the time-of-day
component never matters). -/
theorem C10_theorem :
    (∀ (now : ℚ) (d1 d2 : List ℚ), d1.Perm d2 →
      calculate_current_streak now d1 = calculate_current_streak now d2) ∧
    (∀ (now t : ℚ) (ds : List ℚ), dayOf t ∈ ds.map dayOf →
      calculate_current_streak now (t :: ds) = calculate_current_streak now ds) ∧
    (∀ (now : ℚ) (d1 d2 : List ℚ), d1.map dayOf = d2.map dayOf →
      calculate_current_streak now d1 = calculate_current_streak now d2) := by
  refine ⟨?_, ?_, ?_⟩
  · intro now d1 d2 hperm
    have hlen := hperm.length_eq
    have hsets : (d1.map dayOf).toFinset = (d2.map dayOf).toFinset :=
      List.toFinset_eq_of_perm _ _ (hperm.map dayOf)
    unfold calculate_current_streak
    rcases List.eq_nil_or_concat d1 with rfl | -
    · have : d2 = [] := List.length_eq_zero.mp (by simpa using hlen.symm)
      simp [this]
    · by_cases h1 : d1 = []
      · have : d2 = [] := List.length_eq_zero.mp (by rw [← hlen, h1]; rfl)
        simp [h1, this]
      · have h2 : d2 ≠ [] := by
          intro h
          apply h1
          apply List.length_eq_zero.mp
          rw [hlen, h]
          rfl
        rw [if_neg h1, if_neg h2, hsets]
  · intro now t ds hmem
    have hne : ds ≠ [] := by
      intro h
      rw [h] at hmem
      simp at hmem
    have hsets : ((t :: ds).map dayOf).toFinset = (ds.map dayOf).toFinset := by
      simp only [List.map_cons, List.toFinset_cons]
      exact Finset.insert_eq_self.mpr (List.mem_toFinset.mpr hmem)
    unfold calculate_current_streak
    rw [if_neg (by simp), if_neg hne, hsets]
  · intro now d1 d2 hmap
    have hlen : d1.length = d2.length := by
      have := congrArg List.length hmap
      simpa using this
    unfold calculate_current_streak
    by_cases h1 : d1 = []
    · have : d2 = [] := List.length_eq_zero.mp (by rw [← hlen, h1]; rfl)
      simp [h1, this]
    · have h2 : d2 ≠ [] := by
        intro h
        apply h1
        apply List.length_eq_zero.mp
        rw [hlen, h]
        rfl
      rw [if_neg h1, if_neg h2, hmap]

/-- Witness for C10: a permuted list, a list with a duplicated day, and a
list with shifted times of day all give the same streak as the original,
at concrete inputs, by applying `C10_theorem`. -/
theorem C10_witness :
    calculate_current_streak 0 [0, -86400] = calculate_current_streak 0 [-86400, 0] ∧
    calculate_current_streak 0 [3600, 0, -86400] = calculate_current_streak 0 [0, -86400] ∧
    calculate_current_streak 0 [7200, -82800] = calculate_current_streak 0 [0, -86400] := by
  refine ⟨?_, ?_, ?_⟩
  · exact C10_theorem.1 0 [0, -86400] [-86400, 0] (List.Perm.swap (-86400) 0 [])
  · apply C10_theorem.2.1 0 3600 [0, -86400]
    norm_num [dayOf]
  · apply C10_theorem.2.2 0 [7200, -82800] [0, -86400]
    norm_num [dayOf]

/-! ## Claim C4: invalid difficulty -/

lemma calculate_next_review_invalid {d : ℤ} (hd : d < 1 ∨ 5 < d)
    (now : ℚ) (last : Option ℚ) :
    calculate_next_review now d last = .error .keyError := by
  have h1 : d ≠ 1 := by omega
  have h2 : d ≠ 2 := by omega
  have h3 : d ≠ 3 := by omega
  have h4 : d ≠ 4 := by omega
  have h5 : d ≠ 5 := by omega
  cases last with
  | none => simp [calculate_next_review, initial_days, h1, h2, h3, h4, h5]
  | some l => simp [calculate_next_review, multiplier, h1, h2, h3, h4, h5]

/-- C4 fails on the code in its "no store access" part: with a valid slug
and difficulty 0, the logging flow performs the catalog existence probe,
the tags fetch and the last-review fetch (three reads) before the
scheduler's dict lookup raises; only then does it fail. -/
theorem C4_counterexample :
    (log_problem true true 0 "u" "two-sum" "T" 0
        { catalog := [("two-sum", .null)], logs := [] }).result = .error .keyError ∧
    (log_problem true true 0 "u" "two-sum" "T" 0
        { catalog := [("two-sum", .null)], logs := [] }).events =
      [.selectCatalog, .selectCatalog, .selectLogs] ∧
    DBEvent.selectCatalog ∈ (log_problem true true 0 "u" "two-sum" "T" 0
        { catalog := [("two-sum", .null)], logs := [] }).events := by
  refine ⟨?_, ?_, ?_⟩ <;>
    simp [log_problem, get_db_cursor, logBody, findCatalog, lookupLog,
      calculate_next_review, initial_days]

/-- C4 amended: for every difficulty outside 1..5 both scheduler cases
fail (the dict lookup raises `KeyError`), and the logging flow fails with
no WRITE to the store — the visible store is unchanged and no insert is
performed — though catalog/log READS do happen before the rejection. -/
theorem C4_theorem (d : ℤ) (hd : d < 1 ∨ 5 < d) :
    (∀ (now : ℚ) (last : Option ℚ),
      calculate_next_review now d last = .error .keyError) ∧
    (∀ (connectOk commitOk : Bool) (now : ℚ) (u s t : String) (st : Store),
      (∃ e, (log_problem connectOk commitOk now u s t d st).result = .error e) ∧
      (log_problem connectOk commitOk now u s t d st).store = st ∧
      DBEvent.insertLog ∉ (log_problem connectOk commitOk now u s t d st).events) := by
  refine ⟨fun now last => calculate_next_review_invalid hd now last, ?_⟩
  intro connectOk commitOk now u s t st
  cases connectOk with
  | false =>
    exact ⟨⟨.connectError, rfl⟩, rfl, by simp [log_problem, get_db_cursor]⟩
  | true =>
    cases hcat : findCatalog s st with
    | none =>
      refine ⟨⟨.problemNotExist, ?_⟩, ?_, ?_⟩ <;>
        simp [log_problem, get_db_cursor, logBody, hcat]
    | some tv =>
      have hsched := calculate_next_review_invalid hd now
        ((lookupLog u s st.logs).map LogEntry.dateSolved)
      refine ⟨⟨.keyError, ?_⟩, ?_, ?_⟩ <;>
        simp [log_problem, get_db_cursor, logBody, hcat, hsched]

/-- Witness for C4's amended theorem at difficulty 6. -/
theorem C4_witness :
    calculate_next_review 0 6 none = .error .keyError ∧
    (log_problem true true 0 "u" "two-sum" "T" 6
        { catalog := [("two-sum", .null)], logs := [] }).store =
      { catalog := [("two-sum", .null)], logs := [] } := by
  have h := C4_theorem 6 (by norm_num)
  exact ⟨h.1 0 none, (h.2 true true 0 "u" "two-sum" "T"
    { catalog := [("two-sum", .null)], logs := [] }).2.1⟩

/-! ## Claim C5: logging an unknown slug -/

/-- C5: for every store and every slug absent from the catalog, the
logging flow fails with the problem-not-found error (surfaced by the code
as HTTP 400 "Problem does not exist in database", then wrapped to a 500 by
the cursor and endpoint handlers) and performs no write: the visible store
is exactly the original one and no insert event occurs. -/
theorem C5_theorem (commitOk : Bool) (now : ℚ) (u s t : String) (d : ℤ)
    (st : Store) (habs : findCatalog s st = none) :
    (log_problem true commitOk now u s t d st).result = .error .problemNotExist ∧
    (log_problem true commitOk now u s t d st).store = st ∧
    DBEvent.insertLog ∉ (log_problem true commitOk now u s t d st).events := by
  refine ⟨?_, ?_, ?_⟩ <;> simp [log_problem, get_db_cursor, logBody, habs]

/-- Witness for C5 on a concrete empty catalog. -/
theorem C5_witness :
    (log_problem true true 0 "u" "missing" "T" 3
        { catalog := [], logs := [] }).result = .error .problemNotExist ∧
    (log_problem true true 0 "u" "missing" "T" 3
        { catalog := [], logs := [] }).store = { catalog := [], logs := [] } :=
  ⟨(C5_theorem true 0 "u" "missing" "T" 3 { catalog := [], logs := [] } rfl).1,
   (C5_theorem true 0 "u" "missing" "T" 3 { catalog := [], logs := [] } rfl).2.1⟩

/-! ## Claim C9: the scoped cursor -/

/-- C9: for every run of a stateful operation through `get_db_cursor` —
with any body — success means the transaction was committed and the body's
new store is visible; any failure (connection error, body exception, or
commit failure) leaves the visible store unchanged and, when a connection
was acquired, rolls back; the error is surfaced to the caller as the
result (no retry exists — the wrapper runs the body at most once by
construction); and the connection is closed exactly when one was
acquired. -/
theorem C9_theorem {α : Type} (connectOk commitOk : Bool) (st : Store)
    (body : Store → Except PyErr (Store × α) × List DBEvent) :
    ((get_db_cursor connectOk commitOk st body).closed
        = (get_db_cursor connectOk commitOk st body).acquired) ∧
    (∀ a, (get_db_cursor connectOk commitOk st body).result = .ok a →
      (get_db_cursor connectOk commitOk st body).committed = true) ∧
    (∀ e, (get_db_cursor connectOk commitOk st body).result = .error e →
      (get_db_cursor connectOk commitOk st body).store = st ∧
      ((get_db_cursor connectOk commitOk st body).acquired = true →
        (get_db_cursor connectOk commitOk st body).rolledBack = true)) ∧
    (∀ (st' : Store) (a : α) (evs : List DBEvent),
      body st = (.ok (st', a), evs) → connectOk = true → commitOk = true →
      (get_db_cursor connectOk commitOk st body).result = .ok a ∧
      (get_db_cursor connectOk commitOk st body).store = st' ∧
      (get_db_cursor connectOk commitOk st body).committed = true) ∧
    (∀ (e : PyErr) (evs : List DBEvent),
      body st = (.error e, evs) → connectOk = true →
      (get_db_cursor connectOk commitOk st body).result = .error e ∧
      (get_db_cursor connectOk commitOk st body).store = st ∧
      (get_db_cursor connectOk commitOk st body).rolledBack = true) := by
  cases connectOk with
  | false =>
    refine ⟨by simp [get_db_cursor], ?_, ?_, ?_, ?_⟩
    · intro a h
      simp [get_db_cursor] at h
    · intro e h
      refine ⟨by simp [get_db_cursor], ?_⟩
      intro h2
      simp [get_db_cursor] at h2
    · intro st' a evs hb hc
      exact absurd hc (by simp)
    · intro e evs hb hc
      exact absurd hc (by simp)
  | true =>
    rcases hbody : body st with ⟨res, evs⟩
    cases res with
    | ok pair =>
      rcases pair with ⟨st', a⟩
      cases commitOk with
      | true =>
        refine ⟨by simp [get_db_cursor, hbody], ?_, ?_, ?_, ?_⟩
        · intro a' h
          simp [get_db_cursor, hbody]
        · intro e h
          simp [get_db_cursor, hbody] at h
        · intro st'' a' evs' hb _ _
          have h1 := congrArg Prod.fst hb
          simp only at h1
          have h2 := Except.ok.inj h1
          have hst : st'' = st' := (Prod.mk.injEq _ _ _ _ |>.mp h2).1.symm
          have ha : a' = a := (Prod.mk.injEq _ _ _ _ |>.mp h2).2.symm
          subst hst
          subst ha
          exact ⟨by simp [get_db_cursor, hbody], by simp [get_db_cursor, hbody],
            by simp [get_db_cursor, hbody]⟩
        · intro e evs' hb _
          have h1 := congrArg Prod.fst hb
          simp at h1
      | false =>
        refine ⟨by simp [get_db_cursor, hbody], ?_, ?_, ?_, ?_⟩
        · intro a' h
          simp [get_db_cursor, hbody] at h
        · intro e h
          exact ⟨by simp [get_db_cursor, hbody], fun _ => by simp [get_db_cursor, hbody]⟩
        · intro st'' a' evs' hb _ hc
          exact absurd hc (by simp)
        · intro e evs' hb _
          have h1 := congrArg Prod.fst hb
          simp at h1
    | error e0 =>
      refine ⟨by simp [get_db_cursor, hbody], ?_, ?_, ?_, ?_⟩
      · intro a' h
        simp [get_db_cursor, hbody] at h
      · intro e h
        exact ⟨by simp [get_db_cursor, hbody], fun _ => by simp [get_db_cursor, hbody]⟩
      · intro st'' a' evs' hb _ _
        have h1 := congrArg Prod.fst hb
        simp at h1
      · intro e evs' hb _
        have h1 := congrArg Prod.fst hb
        simp only at h1
        have h2 := Except.error.inj h1
        subst h2
        exact ⟨by simp [get_db_cursor, hbody], by simp [get_db_cursor, hbody],
          by simp [get_db_cursor, hbody]⟩

/-- Witness for C9: the cursor wrapper on a concrete body that upserts one
row — commit on success, visible store updated, connection closed. -/
theorem C9_witness :
    (get_db_cursor true true { catalog := [], logs := [] }
      (fun st => (.ok ({ st with catalog := [("a", .null)] }, (42 : ℕ)), []))).result
        = .ok 42 ∧
    (get_db_cursor true true { catalog := [], logs := [] }
      (fun st => (.ok ({ st with catalog := [("a", .null)] }, (42 : ℕ)), []))).store
        = { catalog := [("a", .null)], logs := [] } := by
  have h := (C9_theorem true true { catalog := [], logs := [] }
    (fun st => (.ok ({ st with catalog := [("a", .null)] }, (42 : ℕ)), []))).2.2.2.1
    { catalog := [("a", .null)], logs := [] } 42 [] rfl rfl rfl
  exact ⟨h.1, h.2.1⟩

/-! ## Claim C6: logging twice upserts one record -/

/-- C6: logging the same `(user, slug)` pair twice (both calls valid and
committed) leaves exactly one stored record for that pair; its difficulty,
date-solved (the second call's `now`), next-review date (computed by the
scheduler from the second difficulty and the first call's solve date) and
tag snapshot all come from the second call; and key-uniqueness of the log
table is preserved, so a user has at most one current entry per problem. -/
theorem C6_theorem (now1 now2 : ℚ) (u s t1 t2 : String) (d1 d2 : ℤ) (st : Store)
    (huniq : KeysUnique st.logs) (tv : TagsVal) (hcat : findCatalog s st = some tv)
    (h1a : 1 ≤ d1) (h1b : d1 ≤ 5) (h2a : 1 ≤ d2) (h2b : d2 ≤ 5) :
    ∃ e : LogEntry,
      countKey u s ((log_problem true true now2 u s t2 d2
          (log_problem true true now1 u s t1 d1 st).store).store.logs) = 1 ∧
      lookupLog u s ((log_problem true true now2 u s t2 d2
          (log_problem true true now1 u s t1 d1 st).store).store.logs) = some e ∧
      e.difficulty = d2 ∧
      e.dateSolved = now2 ∧
      calculate_next_review now2 d2 (some now1) = .ok e.nextReview ∧
      e.tags = normalizeTags tv ∧
      KeysUnique ((log_problem true true now2 u s t2 d2
          (log_problem true true now1 u s t1 d1 st).store).store.logs) := by
  obtain ⟨v1, hv1⟩ := calculate_next_review_ok now1 d1
    ((lookupLog u s st.logs).map LogEntry.dateSolved) h1a h1b
  have hlog1 := log_problem_ok (t := t1) hcat hv1
  have hcat1 : findCatalog s
      { catalog := st.catalog,
        logs := upsertLog u s ⟨t1, d1, now1, v1, normalizeTags tv⟩ st.logs } = some tv :=
    hcat
  have hdate1 : ((lookupLog u s
      (upsertLog u s ⟨t1, d1, now1, v1, normalizeTags tv⟩ st.logs)).map
        LogEntry.dateSolved) = some now1 := by
    rw [lookupLog_upsert_self]
    cases h : lookupLog u s st.logs <;> simp [mergeEntry]
  obtain ⟨v2, hv2⟩ := calculate_next_review_ok now2 d2 (some now1) h2a h2b
  have hv2' : calculate_next_review now2 d2
      ((lookupLog u s (upsertLog u s ⟨t1, d1, now1, v1, normalizeTags tv⟩ st.logs)).map
        LogEntry.dateSolved) = .ok v2 := by
    rw [hdate1]
    exact hv2
  have hlog2 := log_problem_ok (t := t2) hcat1 hv2'
  have huniq1 : KeysUnique (upsertLog u s ⟨t1, d1, now1, v1, normalizeTags tv⟩ st.logs) :=
    KeysUnique_upsert huniq
  rw [hlog1]
  rw [hlog2]
  refine ⟨(lookupLog u s
      (upsertLog u s ⟨t1, d1, now1, v1, normalizeTags tv⟩ st.logs)).elim
        ⟨t2, d2, now2, v2, normalizeTags tv⟩
        (fun old => mergeEntry old ⟨t2, d2, now2, v2, normalizeTags tv⟩),
    countKey_upsert huniq1, lookupLog_upsert_self u s _ _, ?_, ?_, ?_, ?_,
    KeysUnique_upsert huniq1⟩
  · cases h : lookupLog u s
      (upsertLog u s ⟨t1, d1, now1, v1, normalizeTags tv⟩ st.logs) <;>
      simp [mergeEntry]
  · cases h : lookupLog u s
      (upsertLog u s ⟨t1, d1, now1, v1, normalizeTags tv⟩ st.logs) <;>
      simp [mergeEntry]
  · cases h : lookupLog u s
      (upsertLog u s ⟨t1, d1, now1, v1, normalizeTags tv⟩ st.logs) <;>
      simp [mergeEntry, hv2]
  · cases h : lookupLog u s
      (upsertLog u s ⟨t1, d1, now1, v1, normalizeTags tv⟩ st.logs) <;>
      simp [mergeEntry]

/-- Witness for C6: a concrete double log of "two-sum". -/
theorem C6_witness :
    ∃ e : LogEntry,
      countKey "u" "two-sum" ((log_problem true true 86400 "u" "two-sum" "B" 5
          (log_problem true true 0 "u" "two-sum" "A" 2
            { catalog := [("two-sum", .null)], logs := [] }).store).store.logs) = 1 ∧
      lookupLog "u" "two-sum" ((log_problem true true 86400 "u" "two-sum" "B" 5
          (log_problem true true 0 "u" "two-sum" "A" 2
            { catalog := [("two-sum", .null)], logs := [] }).store).store.logs) = some e ∧
      e.difficulty = 5 ∧
      e.dateSolved = 86400 ∧
      calculate_next_review 86400 5 (some 0) = .ok e.nextReview ∧
      e.tags = normalizeTags .null ∧
      KeysUnique ((log_problem true true 86400 "u" "two-sum" "B" 5
          (log_problem true true 0 "u" "two-sum" "A" 2
            { catalog := [("two-sum", .null)], logs := [] }).store).store.logs) :=
  C6_theorem 0 86400 "u" "two-sum" "A" "B" 2 5
    { catalog := [("two-sum", .null)], logs := [] }
    (by simp [KeysUnique]) .null rfl
    (by norm_num) (by norm_num) (by norm_num) (by norm_num)

/-! ## Claim C8: tag normalization -/

/-- C8: during logging, a catalog tags value that is a JSON object
normalizes to the list of its keys, null normalizes to the empty list, a
list is kept as is — so the value stored on the upserted log row is always
a list of strings, namely `normalizeTags` of the catalog value. -/
theorem C8_theorem :
    normalizeTags (.dict [("array", 1), ("string", 1)]) = ["array", "string"] ∧
    normalizeTags .null = [] ∧
    (∀ l, normalizeTags (.list l) = l) ∧
    (∀ (now : ℚ) (u s t : String) (d : ℤ) (st : Store) (tv : TagsVal) (v : ℚ),
      findCatalog s st = some tv →
      calculate_next_review now d
        ((lookupLog u s st.logs).map LogEntry.dateSolved) = .ok v →
      ∃ e, lookupLog u s (log_problem true true now u s t d st).store.logs = some e ∧
        e.tags = normalizeTags tv) := by
  refine ⟨rfl, rfl, fun l => rfl, ?_⟩
  intro now u s t d st tv v hcat hnext
  rw [log_problem_ok hcat hnext]
  refine ⟨_, lookupLog_upsert_self u s _ _, ?_⟩
  cases h : lookupLog u s st.logs <;> simp [mergeEntry]

/-- Witness for C8: a dict-tagged catalog row's keys end up on the log. -/
theorem C8_witness :
    ∃ e, lookupLog "u" "p" (log_problem true true 0 "u" "p" "T" 3
        { catalog := [("p", .dict [("array", 1), ("string", 1)])],
          logs := [] }).store.logs = some e ∧
      e.tags = ["array", "string"] := by
  obtain ⟨e, h1, h2⟩ := C8_theorem.2.2.2 0 "u" "p" "T" 3
    { catalog := [("p", .dict [("array", 1), ("string", 1)])], logs := [] }
    (.dict [("array", 1), ("string", 1)]) (0 + 86400 * 4) rfl
    (by norm_num [calculate_next_review, initial_days, lookupLog])
  exact ⟨e, h1, by rw [h2]; rfl⟩

/-! ## Claim C7: the review query -/

lemma joinedRows_mem (u : String) (st : Store) (rc : LogRow × TagsVal) :
    rc ∈ joinedRows u st ↔
      rc.1 ∈ st.logs ∧ rc.1.1.1 = u ∧ findCatalog rc.1.1.2 st = some rc.2 := by
  unfold joinedRows
  rw [List.mem_filterMap]
  constructor
  · rintro ⟨r, hr, hf⟩
    by_cases hu : r.1.1 = u
    · rw [if_pos hu] at hf
      rcases Option.map_eq_some'.mp hf with ⟨tv, htv, heq⟩
      rw [← heq]
      exact ⟨hr, hu, htv⟩
    · rw [if_neg hu] at hf
      cases hf
  · rintro ⟨hmem, hu, hcat⟩
    refine ⟨rc.1, hmem, ?_⟩
    rw [if_pos hu, hcat]
    simp

lemma minByNextReview_spec :
    ∀ (l : List (LogRow × TagsVal)), l ≠ [] →
      ∃ rc, minByNextReview l = some rc ∧ rc ∈ l ∧
        ∀ x ∈ l, rc.1.2.nextReview ≤ x.1.2.nextReview := by
  intro l
  induction l with
  | nil =>
    intro h
    exact absurd rfl h
  | cons r rest ih =>
    intro _
    by_cases hrest : rest = []
    · subst hrest
      refine ⟨r, by simp [minByNextReview], by simp, ?_⟩
      intro x hx
      rcases List.mem_cons.mp hx with rfl | hx
      · exact le_refl _
      · cases hx
    · obtain ⟨m, hm, hmem, hmin⟩ := ih hrest
      by_cases hle : r.1.2.nextReview ≤ m.1.2.nextReview
      · refine ⟨r, by simp [minByNextReview, hm, hle], by simp, ?_⟩
        intro x hx
        rcases List.mem_cons.mp hx with rfl | hx
        · exact le_refl _
        · exact le_trans hle (hmin x hx)
      · refine ⟨m, by simp [minByNextReview, hm, hle], List.mem_cons_of_mem _ hmem, ?_⟩
        intro x hx
        rcases List.mem_cons.mp hx with rfl | hx
        · exact le_of_lt (not_le.mp hle)
        · exact hmin x hx

/-- The data-model invariant of spec section 3: every log row's slug is a
foreign key into the Problem catalog. -/
def CatalogHasAll (st : Store) : Prop :=
  ∀ r ∈ st.logs, ∃ tv, findCatalog r.1.2 st = some tv

/-- C7 fails on the code in the sub-second edge of its `nextUp` part: at
`now` = 23:59:59.5 UTC (half a second after the query's 23:59:59 cutoff),
a record with next review at 23:59:59.25 is not due (it is after the
cutoff) yet is returned as `nextUp` even though its next review date is
NOT greater than now. -/
theorem C7_counterexample :
    get_todays_reviews (86399 + 1/2) "u"
      { catalog := [("two-sum", TagsVal.null)],
        logs := [(("u", "two-sum"), ⟨"T", 3, 0, 86399 + 1/4, []⟩)] } =
      .nextUp ((("u", "two-sum"), ⟨"T", 3, 0, 86399 + 1/4, []⟩), .null) ∧
    (86399 + 1/4 : ℚ) < 86399 + 1/2 := by
  constructor
  · have hday : dayOf (86399 + 1/2 : ℚ) = 0 := by
      unfold dayOf
      rw [Int.floor_eq_zero_iff]
      constructor <;> norm_num
    have hfalse : decide ((86399 + 1/4 : ℚ) ≤ todayEnd (86399 + 1/2)) = false := by
      simp only [todayEnd, hday]
      norm_num
    simp [get_todays_reviews, joinedRows, findCatalog, minByNextReview, hfalse]
    simp only [todayEnd]
    have hday2 : dayOf (86399 + 2⁻¹ : ℚ) = 0 := by
      unfold dayOf
      rw [Int.floor_eq_zero_iff]
      constructor <;> norm_num
    rw [hday2]
    norm_num
  · norm_num

/-- C7 amended: assuming the foreign-key invariant (every logged slug is in
the catalog), the query returns the non-empty joined due list (and no
`nextUp`) exactly when some record of the user is due by 23:59:59 UTC
today; when none are due but the user has records, it returns the record
with the globally minimal next review date as `nextUp` — that date is
greater than the 23:59:59 cutoff (hence greater than `now` whenever `now`
has not passed 23:59:59, i.e. except within the final fractional second of
the day); and a user with no records gets the empty response. -/
theorem C7_theorem (now : ℚ) (u : String) (st : Store) (hFK : CatalogHasAll st) :
    ((∃ r ∈ st.logs, r.1.1 = u ∧ r.2.nextReview ≤ todayEnd now) →
      ∃ rows, get_todays_reviews now u st = .due rows ∧ rows ≠ [] ∧
        (∀ rc ∈ rows, rc.1.1.1 = u ∧ rc.1.2.nextReview ≤ todayEnd now ∧
          rc.1 ∈ st.logs ∧ findCatalog rc.1.1.2 st = some rc.2) ∧
        (∀ r ∈ st.logs, r.1.1 = u → r.2.nextReview ≤ todayEnd now →
          ∃ tv, (r, tv) ∈ rows)) ∧
    ((∀ r ∈ st.logs, r.1.1 = u → ¬(r.2.nextReview ≤ todayEnd now)) →
      (∃ r ∈ st.logs, r.1.1 = u) →
      ∃ rc, get_todays_reviews now u st = .nextUp rc ∧
        rc.1.1.1 = u ∧ rc.1 ∈ st.logs ∧
        todayEnd now < rc.1.2.nextReview ∧
        (∀ r ∈ st.logs, r.1.1 = u → rc.1.2.nextReview ≤ r.2.nextReview)) ∧
    ((∀ r ∈ st.logs, r.1.1 ≠ u) → get_todays_reviews now u st = .empty) := by
  refine ⟨?_, ?_, ?_⟩
  · rintro ⟨r, hr, hru, hdue⟩
    obtain ⟨tv, htv⟩ := hFK r hr
    have hrJ : (r, tv) ∈ joinedRows u st :=
      (joinedRows_mem u st (r, tv)).mpr ⟨hr, hru, htv⟩
    have hrD : (r, tv) ∈ (joinedRows u st).filter
        (fun rc => decide (rc.1.2.nextReview ≤ todayEnd now)) :=
      List.mem_filter.mpr ⟨hrJ, by simp [hdue]⟩
    have hne : (joinedRows u st).filter
        (fun rc => decide (rc.1.2.nextReview ≤ todayEnd now)) ≠ [] := by
      intro h
      rw [h] at hrD
      cases hrD
    refine ⟨_, ?_, hne, ?_, ?_⟩
    · simp only [get_todays_reviews]
      rw [if_pos hne]
    · intro rc hrc
      obtain ⟨hJ, hdec⟩ := List.mem_filter.mp hrc
      obtain ⟨hmem, hu, hcatc⟩ := (joinedRows_mem u st rc).mp hJ
      exact ⟨hu, by simpa using hdec, hmem, hcatc⟩
    · intro r' hr' hu' hdue'
      obtain ⟨tv', htv'⟩ := hFK r' hr'
      exact ⟨tv', List.mem_filter.mpr
        ⟨(joinedRows_mem u st (r', tv')).mpr ⟨hr', hu', htv'⟩, by simp [hdue']⟩⟩
  · rintro hnone ⟨r, hr, hru⟩
    obtain ⟨tv, htv⟩ := hFK r hr
    have hrJ : (r, tv) ∈ joinedRows u st :=
      (joinedRows_mem u st (r, tv)).mpr ⟨hr, hru, htv⟩
    have hJne : joinedRows u st ≠ [] := by
      intro h
      rw [h] at hrJ
      cases hrJ
    have hfilter : (joinedRows u st).filter
        (fun rc => decide (rc.1.2.nextReview ≤ todayEnd now)) = [] := by
      rw [List.filter_eq_nil_iff]
      intro rc hrc
      obtain ⟨hmem, hu, -⟩ := (joinedRows_mem u st rc).mp hrc
      simpa using hnone rc.1 hmem hu
    obtain ⟨rc, hmin, hmemJ, hminle⟩ := minByNextReview_spec _ hJne
    obtain ⟨hmem, hu, hcatc⟩ := (joinedRows_mem u st rc).mp hmemJ
    refine ⟨rc, ?_, hu, hmem, ?_, ?_⟩
    · simp only [get_todays_reviews]
      rw [hfilter]
      simp only [ne_eq, not_true_eq_false, if_false]
      rw [hmin]
    · exact not_le.mp (hnone rc.1 hmem hu)
    · intro r' hr' hu'
      obtain ⟨tv', htv'⟩ := hFK r' hr'
      exact hminle (r', tv') ((joinedRows_mem u st (r', tv')).mpr ⟨hr', hu', htv'⟩)
  · intro hnou
    have hJnil : joinedRows u st = [] := by
      rw [List.eq_nil_iff_forall_not_mem]
      intro rc hrc
      obtain ⟨hmem, hu, -⟩ := (joinedRows_mem u st rc).mp hrc
      exact hnou rc.1 hmem hu
    simp [get_todays_reviews, hJnil, minByNextReview]

/-- Witness for C7: a one-row store with a review due today yields a
non-empty due list; an empty-logs store yields the empty response. -/
theorem C7_witness :
    (∃ rows, get_todays_reviews 43200 "u"
        { catalog := [("two-sum", TagsVal.null)],
          logs := [(("u", "two-sum"), ⟨"T", 3, 0, 0, []⟩)] } = .due rows ∧
      rows ≠ []) ∧
    get_todays_reviews 43200 "u" { catalog := [], logs := [] } = .empty := by
  constructor
  · have h := (C7_theorem 43200 "u"
      { catalog := [("two-sum", TagsVal.null)],
        logs := [(("u", "two-sum"), ⟨"T", 3, 0, 0, []⟩)] }
      (by
        intro r hr
        simp only [List.mem_singleton] at hr
        exact ⟨.null, by rw [hr]; rfl⟩)).1
    obtain ⟨rows, hresp, hne, -, -⟩ := h ⟨(("u", "two-sum"), ⟨"T", 3, 0, 0, []⟩),
      by simp, rfl, by
        unfold todayEnd dayOf
        have : (⌊(43200 : ℚ) / 86400⌋ : ℤ) = 0 := by
          rw [Int.floor_eq_zero_iff]
          constructor <;> norm_num
        rw [this]
        norm_num⟩
    exact ⟨rows, hresp, hne⟩
  · exact (C7_theorem 43200 "u" { catalog := [], logs := [] }
      (by intro r hr; cases hr)).2.2 (by intro r hr; cases hr)

end RepeetCode
